import Mathlib

/-!
Shallow embedding of `src/index.js` (class `TsFileAnalyzer`), a code-statistics
utility for TypeScript projects.  File contents are modelled as `List Char`
(one JS string = one list of characters); a file is the list of its lines as
produced by `content.split('\n')`.  Machine integers do not overflow in this
program (all counters are small naturals), so counters are `Nat`.
-/

/-- The whitespace characters trimmed by JS `String.prototype.trim` and matched
by `\s`, restricted to the ASCII range actually occurring in source text. -/
def isJsWhitespace (c : Char) : Bool :=
  c = ' ' || c = '\t' || c = '\n' || c = '\r' || c = '\x0b' || c = '\x0c'

/-- JS `s.trim()`: remove leading and trailing whitespace. -/
def trim (l : List Char) : List Char :=
  ((l.dropWhile isJsWhitespace).reverse.dropWhile isJsWhitespace).reverse

/-- JS `s.split(sep)` for a one-character separator: split at every
occurrence of `sep`; always yields at least one element. -/
def splitOnChar (sep : Char) : List Char → List (List Char)
  | [] => [[]]
  | c :: cs =>
    match splitOnChar sep cs with
    | [] => [[c]]          -- unreachable: splitOnChar never returns []
    | l :: ls => if c = sep then [] :: l :: ls else (c :: l) :: ls

/-- JS `content.split('\n')` (line 89). -/
def splitLines (content : List Char) : List (List Char) :=
  splitOnChar '\n' content

/-- JS `s.includes(pat)` for a non-empty pattern string. -/
def hasSub (pat : List Char) : List Char → Bool
  | [] => pat.isPrefixOf ([] : List Char)
  | l@(_ :: cs) => pat.isPrefixOf l || hasSub pat cs

/-- JS `s.split(pat)[0]`: the prefix before the first occurrence of `pat`
(the whole string when `pat` does not occur). -/
def beforeSub (pat : List Char) : List Char → List Char
  | [] => []
  | l@(c :: cs) => if pat.isPrefixOf l then [] else c :: beforeSub pat cs

/-- JS `s.split(pat).slice(1).join(pat)`: everything after the first
occurrence of `pat` (empty when `pat` does not occur). -/
def afterSub (pat : List Char) : List Char → List Char
  | [] => []
  | l@(_ :: cs) => if pat.isPrefixOf l then l.drop pat.length else afterSub pat cs

/-- Scanning helper for the JS regexes `/\/\*.*\*\//` and `/\/\*.*?\*\//g`:
from a position just after a `/*` opener, the number of characters up to and
including the nearest `*/` closer, provided no line terminator (which `.`
cannot match) intervenes; `none` when no such closer is reachable. -/
def findCloseLen : List Char → Option Nat
  | [] => none
  | [_] => none
  | c :: d :: cs =>
    if c = '*' && d = '/' then some 2
    else if c = '\n' || c = '\r' then none
    else (findCloseLen (d :: cs)).map (· + 1)

/-- JS `s.match(/\/\*.*\*\//) !== null`: the line contains a `/*` opener with
a `*/` closer reachable after it on the same line. -/
def hasBlockPair : List Char → Bool
  | [] => false
  | l@(_ :: cs) =>
    (("/*".toList).isPrefixOf l && (findCloseLen (l.drop 2)).isSome) || hasBlockPair cs

/-- Fuelled worker for `stripBlockComments`; the fuel only bounds the
recursion (each step consumes at least one character, so fuel = length of the
input never runs out). -/
def stripBlockCommentsGo : Nat → List Char → List Char
  | _, [] => []
  | 0, l => l
  | fuel + 1, '/' :: '*' :: cs =>
    (match findCloseLen cs with
     | some n => stripBlockCommentsGo fuel (cs.drop n)
     | none => '/' :: stripBlockCommentsGo fuel ('*' :: cs))
  | fuel + 1, c :: cs => c :: stripBlockCommentsGo fuel cs

/-- JS `s.replace(/\/\*.*?\*\//g, '')` (line 150): remove every complete
`/*...*/` span, lazily matching each opener to the nearest closer, scanning
left to right. -/
def stripBlockComments (l : List Char) : List Char :=
  stripBlockCommentsGo l.length l

/-- JS `/^(import|export)\s/.test(s)` restricted to one keyword: `s` starts
with the keyword immediately followed by a whitespace character. -/
def kwTest (kw : List Char) (l : List Char) : Bool :=
  kw.isPrefixOf l &&
    (match l.drop kw.length with
     | c :: _ => isJsWhitespace c
     | [] => false)

/-- JS `/^(import|export)\s/.test(s)` (line 168). -/
def startsImportExport (l : List Char) : Bool :=
  kwTest "import".toList l || kwTest "export".toList l

/-- The mutable state of the `countCodeLines` loop (lines 110-114):
the four counters plus the `inMultiLineComment` flag. -/
structure LoopState where
  codeLines : Nat
  commentLines : Nat
  emptyLines : Nat
  importLines : Nat
  inMultiLineComment : Bool
deriving DecidableEq, Repr

/-- Lines 138-175 of `countCodeLines`: classify the fragment `p1` that falls
through after the multi-line-comment handling (the whole trimmed line when
the classifier was not inside a block comment, otherwise the trimmed
remainder after the first `*/`). -/
def classifyFragment (s : LoopState) (p1 : List Char) : LoopState :=
  -- lines 139-146: a `/*` opener with no closer on the line
  if hasSub "/*".toList p1 ∧ ¬ hasBlockPair p1 then
    { s with
      codeLines := s.codeLines + (if trim (beforeSub "/*".toList p1) ≠ [] then 1 else 0),
      commentLines := s.commentLines + 1,
      inMultiLineComment := true }
  else
    -- lines 149-152: complete `/*...*/` spans on one line are stripped
    let p2 := if hasBlockPair p1 then trim (stripBlockComments p1) else p1
    let c2 := if hasBlockPair p1 then s.commentLines + 1 else s.commentLines
    -- lines 155-158: the line is a `//` comment
    if ("//".toList).isPrefixOf p2 then
      { s with commentLines := c2 + 1, inMultiLineComment := false }
    else
      -- lines 161-164: code with a trailing `//` comment
      let p3 := if hasSub "//".toList p2 then trim (beforeSub "//".toList p2) else p2
      let c3 := if hasSub "//".toList p2 then c2 + 1 else c2
      -- lines 166-175: remaining non-empty content is code
      { codeLines := s.codeLines + (if p3 ≠ [] then 1 else 0),
        commentLines := c3,
        emptyLines := s.emptyLines,
        importLines := s.importLines + (if p3 ≠ [] ∧ startsImportExport p3 then 1 else 0),
        inMultiLineComment := false }

/-- One iteration of the `for (const line of lines)` loop of
`countCodeLines` (lines 116-176). -/
def processLine (s : LoopState) (line : List Char) : LoopState :=
  let trimmedLine := trim line
  -- lines 119-122: blank line
  if trimmedLine = [] then
    { s with emptyLines := s.emptyLines + 1 }
  -- lines 128-136: inside a multi-line comment, no terminator on this line
  else if s.inMultiLineComment ∧ ¬ hasSub "*/".toList trimmedLine then
    { s with commentLines := s.commentLines + 1 }
  else
    -- line 131: on a terminator line the remainder after the first `*/`
    -- falls through; otherwise the whole trimmed line does
    classifyFragment s
      (if s.inMultiLineComment then trim (afterSub "*/".toList trimmedLine)
       else trimmedLine)

/-- The record returned by `countCodeLines` (lines 178-183). -/
structure CountResult where
  codeLines : Nat
  commentLines : Nat
  emptyLines : Nat
  importLines : Nat
deriving DecidableEq, Repr

/-- `countCodeLines(lines)` (lines 109-184). -/
def countCodeLines (lines : List (List Char)) : CountResult :=
  let final := lines.foldl processLine ⟨0, 0, 0, 0, false⟩
  ⟨final.codeLines, final.commentLines, final.emptyLines, final.importLines⟩

/-- The statistics record produced by `analyzeFile` (lines 91-95 / 98-105). -/
structure FileStats where
  totalLines : Nat
  codeLines : Nat
  commentLines : Nat
  emptyLines : Nat
  importLines : Nat
  fileSize : Nat
deriving DecidableEq, Repr

/-- `analyzeFile(filePath)` (lines 86-107).  The I/O outcome is the input:
`some (content, size)` when `readFileSync` and `statSync` succeed, `none`
when either throws (the catch branch returns the all-zero record). -/
def analyzeFile : Option (List Char × Nat) → FileStats
  | none => ⟨0, 0, 0, 0, 0, 0⟩
  | some (content, size) =>
    let lines := splitLines content
    let counts := countCodeLines lines
    ⟨lines.length, counts.codeLines, counts.commentLines, counts.emptyLines,
     counts.importLines, size⟩

/-- The fixed ignored-directory set (constructor, lines 6-9). -/
def ignoredDirs : List String :=
  ["node_modules", "dist", "build", ".git", ".vscode", ".idea",
   ".next", "coverage", ".nyc_output", "out", "lib"]

/-- JS `relativePath.split(path.sep)` with `path.sep = '/'`. -/
def splitPath (s : String) : List String :=
  (splitOnChar '/' s.toList).map List.asString

/-- `shouldIgnorePath(relativePath)` (lines 47-54).  The compiled
`.gitignore` regexes are abstract matchers `String → Bool`; membership in
the `Set` of ignored names is membership in the fixed list. -/
def shouldIgnorePath (gitignorePatterns : List (String → Bool))
    (relativePath : String) : Bool :=
  let pathParts := splitPath relativePath
  pathParts.any (fun part => decide (part ∈ ignoredDirs)) ||
    gitignorePatterns.any (fun regex => regex relativePath)

/-- The entries of one directory as enumerated by `fs.readdirSync`, in
enumeration order: a sequence of file entries and directory entries, each
directory carrying its own entry sequence. -/
inductive FsForest where
  | nil
  | fileEntry (name : String) (rest : FsForest)
  | dirEntry (name : String) (children : FsForest) (rest : FsForest)
deriving Repr

/-- The record pushed by `findTsFiles` (lines 72-76).  `fullPath` is the
working directory joined with `relativePath` and carries no extra
information in the model, so only the two informative fields are kept. -/
structure FileHandle where
  relativePath : String
  name : String
deriving DecidableEq, Repr

/-- `path.relative(process.cwd(), fullPath)` for an entry reached through the
segments `segs` from the scan root: the segments joined by `/`. -/
def joinPath : List String → String
  | [] => ""
  | [s] => s
  | s :: rest => s ++ "/" ++ joinPath rest

/-- JS `/\.(ts|tsx)$/.test(name)` (line 71): the name ends in `.ts` or
`.tsx`. -/
def isTsFileName (name : String) : Bool :=
  (".ts".toList).isSuffixOf name.toList || (".tsx".toList).isSuffixOf name.toList

/-- `findTsFiles(dir, files)` (lines 57-84) over the entries of one
directory, `segs` being the path segments from the scan root to `dir`
(`[]` at the top-level call).  The JS accumulator-push order is preserved
as list append. -/
def findTsFiles (patterns : List (String → Bool)) (segs : List String) :
    FsForest → List FileHandle
  | .nil => []
  | .fileEntry name rest =>
    (let relativePath := joinPath (segs ++ [name])
     if shouldIgnorePath patterns relativePath then []
     else if isTsFileName name then [⟨relativePath, name⟩] else [])
    ++ findTsFiles patterns segs rest
  | .dirEntry name children rest =>
    (let relativePath := joinPath (segs ++ [name])
     if shouldIgnorePath patterns relativePath then []
     else findTsFiles patterns (segs ++ [name]) children)
    ++ findTsFiles patterns segs rest

/-- JS `pattern.replace(/\./g, '\\.')` (line 35). -/
def escapeDots : List Char → List Char
  | [] => []
  | c :: cs => if c = '.' then '\\' :: '.' :: escapeDots cs else c :: escapeDots cs

/-- JS `s.replace(/\*/g, '[^/]*')` (line 36). -/
def replaceStar : List Char → List Char
  | [] => []
  | c :: cs =>
    if c = '*' then '[' :: '^' :: '/' :: ']' :: '*' :: replaceStar cs
    else c :: replaceStar cs

/-- JS `s.replace(/\*\*\/g, '.*')`-style double-wildcard substitution
(line 37): replace each non-overlapping `**`, scanning left to right. -/
def replaceDoubleStar : List Char → List Char
  | [] => []
  | [c] => [c]
  | c :: d :: cs =>
    if c = '*' ∧ d = '*' then '.' :: '*' :: replaceDoubleStar cs
    else c :: replaceDoubleStar (d :: cs)

/-- `convertGitignoreToRegex(pattern)` (lines 33-44), as the source regular
expression it builds (a `List Char`). -/
def convertGitignoreToRegex (pattern : List Char) : List Char :=
  let regexPattern := replaceDoubleStar (replaceStar (escapeDots pattern))
  if pattern.getLast? = some '/' then
    regexPattern.dropLast ++ ('(' :: '/' :: '.' :: '*' :: ')' :: '?' :: '$' :: [])
  else regexPattern

/-- The same pipeline with the double-wildcard substitution removed, to be
compared with `convertGitignoreToRegex` (the spec calls that substitution
unreachable). -/
def convertGitignoreToRegexNoDouble (pattern : List Char) : List Char :=
  let regexPattern := replaceStar (escapeDots pattern)
  if pattern.getLast? = some '/' then
    regexPattern.dropLast ++ ('(' :: '/' :: '.' :: '*' :: ')' :: '?' :: '$' :: [])
  else regexPattern

/-- `fileStats.reduce(...)` of `generateReport` (lines 201-215): field-wise
sums starting from the all-zero record. -/
def aggregateTotals (fileStats : List FileStats) : FileStats :=
  fileStats.foldl
    (fun acc file =>
      ⟨acc.totalLines + file.totalLines, acc.codeLines + file.codeLines,
       acc.commentLines + file.commentLines, acc.emptyLines + file.emptyLines,
       acc.importLines + file.importLines, acc.fileSize + file.fileSize⟩)
    ⟨0, 0, 0, 0, 0, 0⟩

/-- An IEEE-double result of a JS arithmetic expression, as far as this
program distinguishes: a finite value (exact here, no rounding occurs in the
modelled expressions) or one of the non-finite values. -/
inductive JsNumber where
  | finite (q : ℚ)
  | nan
  | posInf
  | negInf
deriving DecidableEq, Repr

/-- JS division `a / b`: `0/0` is `NaN` and `x/0` is signed infinity. -/
def jsDiv (a b : ℚ) : JsNumber :=
  if b = 0 then
    if a = 0 then .nan else if 0 < a then .posInf else .negInf
  else .finite (a / b)

/-- JS `(part/total)*100` as in lines 225-228. -/
def reportPercent (part total : ℚ) : JsNumber :=
  match jsDiv part total with
  | .finite q => .finite (q * 100)
  | x => x

/-- The four percentages printed by `generateReport` (lines 225-228):
code, comment, import and empty lines as a percentage of total lines. -/
def reportLinePercents (fileStats : List FileStats) :
    JsNumber × JsNumber × JsNumber × JsNumber :=
  let totals := aggregateTotals fileStats
  (reportPercent totals.codeLines totals.totalLines,
   reportPercent totals.commentLines totals.totalLines,
   reportPercent totals.importLines totals.totalLines,
   reportPercent totals.emptyLines totals.totalLines)

/-- The `filter(file => file.totalLines > 0)` step of `analyze` (line 271),
applied to the per-file analysis outcomes. -/
def analyzedStats (outcomes : List (Option (List Char × Nat))) : List FileStats :=
  (outcomes.map analyzeFile).filter (fun file => 0 < file.totalLines)

/-- `units` of `formatFileSize` (line 187). -/
def sizeUnits : List String := ["B", "KB", "MB", "GB"]

/-- The `while (size >= 1024 && unitIndex < units.length - 1)` loop of
`formatFileSize` (lines 191-194): `fuel` is the number of unit steps still
available (`3` initially), and the returned index counts the divisions
performed. -/
def fileSizeLoop : Nat → ℚ → ℚ × Nat
  | 0, size => (size, 0)
  | fuel + 1, size =>
    if 1024 ≤ size then
      let r := fileSizeLoop fuel (size / 1024)
      (r.1, r.2 + 1)
    else (size, 0)

/-- JS `x.toFixed(1)` for the non-negative exactly-representable values this
program formats: round to the nearest tenth, ties up. -/
def toFixed1 (q : ℚ) : String :=
  let n := ⌊q * 10 + 1 / 2⌋
  toString (n / 10) ++ "." ++ toString (n % 10)

/-- `formatFileSize(bytes)` (lines 186-197). -/
def formatFileSize (bytes : ℚ) : String :=
  let r := fileSizeLoop 3 bytes
  toFixed1 r.1 ++ " " ++ sizeUnits.getD r.2 "B"

/-- The unit index described by the spec: the first unit at which the scaled
value drops below 1024, never past GB (index 3). -/
def specUnitIndex (bytes : ℚ) : Nat :=
  if bytes < 1024 then 0
  else if bytes < 1024 ^ 2 then 1
  else if bytes < 1024 ^ 3 then 2
  else 3

/-- The number of blank lines (empty after trimming) in a line list. -/
def blankCount (lines : List (List Char)) : Nat :=
  lines.countP (fun l => decide (trim l = []))

/-- The number of non-blank lines in a line list. -/
def nonblankCount (lines : List (List Char)) : Nat :=
  lines.countP (fun l => !decide (trim l = []))

/-- A character list with no two adjacent `*` characters. -/
def noDoubleStar : List Char → Prop
  | [] => True
  | [_] => True
  | c :: d :: cs => ¬(c = '*' ∧ d = '*') ∧ noDoubleStar (d :: cs)

-- sanity checks against the JS semantics (spec §8 scenarios)
example : countCodeLines ["// comment".toList] = ⟨0, 1, 0, 0⟩ := by decide
example : countCodeLines ["import \x7b x \x7d from 'y';".toList] = ⟨1, 0, 0, 1⟩ := by decide
example :
    countCodeLines ["/* start".toList, "still comment".toList, "end */ const x = 1;".toList]
      = ⟨1, 2, 0, 0⟩ := by decide
example : countCodeLines ["/*".toList, "*/".toList] = ⟨0, 1, 0, 0⟩ := by decide
example : countCodeLines ["/* a */ // b".toList] = ⟨0, 2, 0, 0⟩ := by decide
example : countCodeLines ["/* a */ x /* b".toList, "y".toList] = ⟨2, 1, 0, 0⟩ := by decide
example :
    findTsFiles [] []
      (.dirEntry "src" (.fileEntry "a.ts" .nil)
        (.dirEntry "node_modules" (.fileEntry "b.ts" .nil)
          (.fileEntry "c.tsx" (.fileEntry "d.txt" .nil))))
      = [⟨"src/a.ts", "a.ts"⟩, ⟨"c.tsx", "c.tsx"⟩] := by decide
example : shouldIgnorePath [] "node_modules/x.ts" = true := by decide
example : ⟨"a.ts", "a.ts"⟩ ∈ findTsFiles [] [] (.fileEntry "a.ts" .nil) := by decide
example : convertGitignoreToRegex ("dist/".toList) = ("dist(/.*)?$".toList) := by decide
example : convertGitignoreToRegex ("*.log".toList) = ("[^/]*\\.log".toList) := by decide
example : reportLinePercents [] = (.nan, .nan, .nan, .nan) := by decide
example : analyzeFile (some ("".toList, 0)) = ⟨1, 0, 0, 1, 0, 0⟩ := by decide

/-! ### Helper lemmas about the line classifier -/

lemma classifyFragment_nil (s : LoopState) :
    classifyFragment s [] = { s with inMultiLineComment := false } := by
  have h1 : hasSub ['/', '*'] ([] : List Char) = false := by decide
  have h2 : hasBlockPair ([] : List Char) = false := by decide
  have h3 : List.isPrefixOf ['/', '/'] ([] : List Char) = false := by decide
  have h4 : hasSub ['/', '/'] ([] : List Char) = false := by decide
  have h5 : trim (beforeSub ['/', '/'] ([] : List Char)) = [] := by decide
  simp [classifyFragment, h1, h2, h3, h4, h5]

lemma classifyFragment_inBlock_irrel (s : LoopState) (b : Bool) (p : List Char) :
    classifyFragment { s with inMultiLineComment := b } p = classifyFragment s p := by
  simp only [classifyFragment]

lemma classifyFragment_counts (s : LoopState) (p : List Char) :
    (classifyFragment s p).emptyLines = s.emptyLines ∧
    s.codeLines ≤ (classifyFragment s p).codeLines ∧
    (classifyFragment s p).codeLines ≤ s.codeLines + 1 ∧
    s.commentLines ≤ (classifyFragment s p).commentLines ∧
    (classifyFragment s p).commentLines ≤ s.commentLines + 2 ∧
    (p ≠ [] → s.codeLines + s.commentLines + 1
        ≤ (classifyFragment s p).codeLines + (classifyFragment s p).commentLines) ∧
    (p = [] → (classifyFragment s p).codeLines = s.codeLines ∧
        (classifyFragment s p).commentLines = s.commentLines) := by
  by_cases hp : p = []
  · subst hp
    simp [classifyFragment_nil]
  · simp only [classifyFragment]
    split_ifs <;> simp_all <;> omega

lemma processLine_cond_true (s : LoopState) (line : List Char)
    (hb : s.inMultiLineComment = true)
    (ht : hasSub "*/".toList (trim line) = false) :
    (s.inMultiLineComment = true) ∧ ¬(hasSub "*/".toList (trim line) = true) :=
  ⟨hb, fun hc => absurd (ht.symm.trans hc) (by decide)⟩

lemma processLine_blank (s : LoopState) (line : List Char) (h : trim line = []) :
    processLine s line = { s with emptyLines := s.emptyLines + 1 } := by
  simp [processLine, h]

lemma processLine_inBlock_noTerm (s : LoopState) (line : List Char)
    (hb : s.inMultiLineComment = true) (hne : trim line ≠ [])
    (ht : hasSub "*/".toList (trim line) = false) :
    processLine s line = { s with commentLines := s.commentLines + 1 } := by
  simp only [processLine]
  rw [if_neg hne, if_pos (processLine_cond_true s line hb ht)]

lemma processLine_inBlock_term (s : LoopState) (line : List Char)
    (hb : s.inMultiLineComment = true)
    (ht : hasSub "*/".toList (trim line) = true) :
    processLine s line
      = classifyFragment s (trim (afterSub "*/".toList (trim line))) := by
  have hne : trim line ≠ [] := by
    intro h; rw [h] at ht; exact absurd ht (by decide)
  simp only [processLine]
  rw [if_neg hne, if_neg (fun h => h.2 ht), if_pos hb]

lemma processLine_notInBlock (s : LoopState) (line : List Char)
    (hb : s.inMultiLineComment = false) (hne : trim line ≠ []) :
    processLine s line = classifyFragment s (trim line) := by
  have hnb : ¬(s.inMultiLineComment = true) := by simp [hb]
  simp only [processLine]
  rw [if_neg hne, if_neg (fun h => hnb h.1), if_neg hnb]

lemma processLine_nonblank_counts (s : LoopState) (line : List Char)
    (hne : trim line ≠ []) :
    (processLine s line).emptyLines = s.emptyLines ∧
    s.codeLines ≤ (processLine s line).codeLines ∧
    (processLine s line).codeLines ≤ s.codeLines + 1 ∧
    s.commentLines ≤ (processLine s line).commentLines ∧
    (processLine s line).commentLines ≤ s.commentLines + 2 := by
  cases hb : s.inMultiLineComment with
  | false =>
    rw [processLine_notInBlock s line hb hne]
    have h := classifyFragment_counts s (trim line)
    exact ⟨h.1, h.2.1, h.2.2.1, h.2.2.2.1, h.2.2.2.2.1⟩
  | true =>
    cases ht : hasSub "*/".toList (trim line) with
    | false =>
      rw [processLine_inBlock_noTerm s line hb hne ht]
      simp
    | true =>
      rw [processLine_inBlock_term s line hb ht]
      have h := classifyFragment_counts s (trim (afterSub "*/".toList (trim line)))
      exact ⟨h.1, h.2.1, h.2.2.1, h.2.2.2.1, h.2.2.2.2.1⟩

lemma blankCount_cons (a : List Char) (t : List (List Char)) :
    blankCount (a :: t) = blankCount t + (if trim a = [] then 1 else 0) := by
  simp [blankCount, List.countP_cons]

lemma nonblankCount_cons (a : List Char) (t : List (List Char)) :
    nonblankCount (a :: t) = nonblankCount t + (if trim a = [] then 0 else 1) := by
  by_cases ha : trim a = [] <;> simp [nonblankCount, List.countP_cons, ha]

lemma blankCount_add_nonblankCount (lines : List (List Char)) :
    blankCount lines + nonblankCount lines = lines.length := by
  induction lines with
  | nil => rfl
  | cons a t ih =>
    rw [blankCount_cons, nonblankCount_cons, List.length_cons]
    by_cases ha : trim a = []
    · rw [if_pos ha, if_pos ha]; omega
    · rw [if_neg ha, if_neg ha]; omega

lemma foldl_processLine_invariants (lines : List (List Char)) :
    ∀ s : LoopState,
      (lines.foldl processLine s).emptyLines = s.emptyLines + blankCount lines ∧
      (lines.foldl processLine s).codeLines ≤ s.codeLines + nonblankCount lines ∧
      (lines.foldl processLine s).commentLines
          ≤ s.commentLines + 2 * nonblankCount lines := by
  induction lines with
  | nil => intro s; simp [blankCount, nonblankCount]
  | cons a t ih =>
    intro s
    obtain ⟨h1, h2, h3⟩ := ih (processLine s a)
    simp only [List.foldl_cons, blankCount_cons, nonblankCount_cons]
    by_cases ha : trim a = []
    · have f1 : (processLine s a).emptyLines = s.emptyLines + 1 := by
        rw [processLine_blank s a ha]
      have f2 : (processLine s a).codeLines = s.codeLines := by
        rw [processLine_blank s a ha]
      have f3 : (processLine s a).commentLines = s.commentLines := by
        rw [processLine_blank s a ha]
      rw [if_pos ha, if_pos ha]
      refine ⟨?_, ?_, ?_⟩ <;> omega
    · obtain ⟨e1, e2, e3, e4, e5⟩ := processLine_nonblank_counts s a ha
      rw [if_neg ha, if_neg ha]
      refine ⟨?_, ?_, ?_⟩ <;> omega

/-! ### Claims about the line classifier -/

/-- C1 counterexample: for the three-line input `/* start`, `still comment`,
`end */ const x = 1;` the code does NOT return commentLines = 3 and
codeLines = 0 (it returns commentLines = 2 and codeLines = 1). -/
theorem scenarioB_counts_disagree :
    ¬ ((countCodeLines ["/* start".toList, "still comment".toList,
          "end */ const x = 1;".toList]).commentLines = 3 ∧
       (countCodeLines ["/* start".toList, "still comment".toList,
          "end */ const x = 1;".toList]).codeLines = 0) := by decide

/-- C1 (amended): when the classifier is inside a block comment and the line
contains `*/`, it exits block-comment mode WITHOUT incrementing commentLines
in that branch and re-examines the remainder after the first terminator: a
line whose trimmed remainder is empty leaves every counter unchanged, and a
non-empty remainder is classified exactly like a line of its own read outside
a block comment; consequently the three-line input `/* start`,
`still comment`, `end */ const x = 1;` yields codeLines = 1 and
commentLines = 2. -/
theorem blockCommentExit_rescans_remainder :
    (∀ (s : LoopState) (line : List Char),
       s.inMultiLineComment = true →
       hasSub "*/".toList (trim line) = true →
       processLine s line =
         if trim (afterSub "*/".toList (trim line)) = []
         then { s with inMultiLineComment := false }
         else processLine { s with inMultiLineComment := false }
                (afterSub "*/".toList (trim line))) ∧
    countCodeLines ["/* start".toList, "still comment".toList,
        "end */ const x = 1;".toList] = ⟨1, 2, 0, 0⟩ := by
  refine ⟨?_, by decide⟩
  intro s line hb ht
  rw [processLine_inBlock_term s line hb ht]
  by_cases hp : trim (afterSub "*/".toList (trim line)) = []
  · rw [if_pos hp, hp, classifyFragment_nil]
  · rw [if_neg hp, processLine_notInBlock _ _ rfl hp]
    exact (classifyFragment_inBlock_irrel s false
      (trim (afterSub "*/".toList (trim line)))).symm

/-- C1 witness: the re-scan equation applied at a concrete in-block state and
the line `end */ x`. -/
theorem blockCommentExit_rescans_remainder_witness :
    (⟨0, 1, 0, 0, true⟩ : LoopState).inMultiLineComment = true ∧
    hasSub "*/".toList (trim ("end */ x".toList)) = true ∧
    processLine ⟨0, 1, 0, 0, true⟩ ("end */ x".toList) =
      (if trim (afterSub "*/".toList (trim ("end */ x".toList))) = []
       then { (⟨0, 1, 0, 0, true⟩ : LoopState) with inMultiLineComment := false }
       else processLine
              { (⟨0, 1, 0, 0, true⟩ : LoopState) with inMultiLineComment := false }
              (afterSub "*/".toList (trim ("end */ x".toList)))) :=
  ⟨rfl, by decide,
   blockCommentExit_rescans_remainder.1 ⟨0, 1, 0, 0, true⟩ ("end */ x".toList)
     rfl (by decide)⟩

/-- C2 counterexample: in the two-line input `/*`, `*/` the second line is
counted in no category at all, so totalLines = 2 exceeds
codeLines + commentLines + emptyLines = 1 and the claimed partition
equality cannot hold. -/
theorem terminatorOnly_line_uncounted :
    ["/*".toList, "*/".toList].length = 2 ∧
    (countCodeLines ["/*".toList, "*/".toList]).codeLines
      + (countCodeLines ["/*".toList, "*/".toList]).commentLines
      + (countCodeLines ["/*".toList, "*/".toList]).emptyLines = 1 := by decide

/-- C2 (amended): a blank line is counted exactly once, in emptyLines only;
a non-blank line never touches emptyLines and is counted in codeLines or
commentLines (possibly both) EXCEPT in one case: a line processed inside a
block comment that contains the terminator `*/` and whose trimmed remainder
after the first terminator is empty is counted in no category, leaving
codeLines and commentLines unchanged. -/
theorem processLine_line_accounting (s : LoopState) (line : List Char) :
    (trim line = [] →
       processLine s line = { s with emptyLines := s.emptyLines + 1 }) ∧
    (trim line ≠ [] →
       (processLine s line).emptyLines = s.emptyLines ∧
       (s.codeLines + s.commentLines + 1
            ≤ (processLine s line).codeLines + (processLine s line).commentLines ∨
        (s.inMultiLineComment = true ∧
         hasSub "*/".toList (trim line) = true ∧
         trim (afterSub "*/".toList (trim line)) = [] ∧
         (processLine s line).codeLines = s.codeLines ∧
         (processLine s line).commentLines = s.commentLines))) := by
  refine ⟨fun h => processLine_blank s line h, fun hne => ?_⟩
  refine ⟨(processLine_nonblank_counts s line hne).1, ?_⟩
  cases hb : s.inMultiLineComment with
  | false =>
    left
    rw [processLine_notInBlock s line hb hne]
    exact (classifyFragment_counts s (trim line)).2.2.2.2.2.1 hne
  | true =>
    cases ht : hasSub "*/".toList (trim line) with
    | false =>
      left
      rw [processLine_inBlock_noTerm s line hb hne ht]
      dsimp only
      omega
    | true =>
      by_cases hp : trim (afterSub "*/".toList (trim line)) = []
      · right
        rw [processLine_inBlock_term s line hb ht, hp, classifyFragment_nil]
        exact ⟨rfl, rfl, rfl, rfl, rfl⟩
      · left
        rw [processLine_inBlock_term s line hb ht]
        exact (classifyFragment_counts s
          (trim (afterSub "*/".toList (trim line)))).2.2.2.2.2.1 hp

/-- C2 witness: the accounting applied to a blank line and to the line `x`
from the all-zero starting state. -/
theorem processLine_line_accounting_witness :
    (trim (" ".toList) = [] ∧
     processLine ⟨0, 0, 0, 0, false⟩ (" ".toList)
       = { (⟨0, 0, 0, 0, false⟩ : LoopState) with emptyLines := 0 + 1 }) ∧
    (trim ("x".toList) ≠ [] ∧
     ((processLine ⟨0, 0, 0, 0, false⟩ ("x".toList)).emptyLines = 0 ∧
      (0 + 0 + 1 ≤ (processLine ⟨0, 0, 0, 0, false⟩ ("x".toList)).codeLines
            + (processLine ⟨0, 0, 0, 0, false⟩ ("x".toList)).commentLines ∨
       ((⟨0, 0, 0, 0, false⟩ : LoopState).inMultiLineComment = true ∧
        hasSub "*/".toList (trim ("x".toList)) = true ∧
        trim (afterSub "*/".toList (trim ("x".toList))) = [] ∧
        (processLine ⟨0, 0, 0, 0, false⟩ ("x".toList)).codeLines = 0 ∧
        (processLine ⟨0, 0, 0, 0, false⟩ ("x".toList)).commentLines = 0)))) :=
  ⟨⟨by decide, (processLine_line_accounting ⟨0, 0, 0, 0, false⟩ (" ".toList)).1
      (by decide)⟩,
   ⟨by decide, (processLine_line_accounting ⟨0, 0, 0, 0, false⟩ ("x".toList)).2
      (by decide)⟩⟩

/-- C3 counterexample: the single-line input `/* a */ // b` has one non-blank
line but commentLines = 2, so commentLines is NOT bounded by
totalLines − emptyLines. -/
theorem commentLines_exceed_nonblank :
    ¬ ((countCodeLines ["/* a */ // b".toList]).commentLines
        ≤ ["/* a */ // b".toList].length
          - (countCodeLines ["/* a */ // b".toList]).emptyLines) := by decide

/-- C3 (amended): codeLines is bounded by totalLines − emptyLines (each
non-blank line adds at most one code line), but commentLines can be
incremented twice by a single line (a complete `/*...*/` span followed by a
`//` comment), so only the weaker bound
commentLines ≤ 2·(totalLines − emptyLines) holds for it. -/
theorem countCodeLines_counter_bounds (lines : List (List Char)) :
    (countCodeLines lines).codeLines
      ≤ lines.length - (countCodeLines lines).emptyLines ∧
    (countCodeLines lines).commentLines
      ≤ 2 * (lines.length - (countCodeLines lines).emptyLines) := by
  obtain ⟨h1, h2, h3⟩ := foldl_processLine_invariants lines ⟨0, 0, 0, 0, false⟩
  have hc := blankCount_add_nonblankCount lines
  simp only [show (⟨0, 0, 0, 0, false⟩ : LoopState).emptyLines = 0 from rfl,
    show (⟨0, 0, 0, 0, false⟩ : LoopState).codeLines = 0 from rfl,
    show (⟨0, 0, 0, 0, false⟩ : LoopState).commentLines = 0 from rfl,
    Nat.zero_add] at h1 h2 h3
  simp only [countCodeLines]
  constructor <;> omega

/-- C10 counterexample: the line `/* a */ // /* b` contains a complete block
comment and a trailing unclosed opener (still present after stripping), yet
its remainder starts with `//` and is counted as a comment, not as code. -/
theorem danglingOpener_after_lineComment_not_code :
    hasBlockPair (trim ("/* a */ // /* b".toList)) = true ∧
    hasSub "/*".toList (stripBlockComments (trim ("/* a */ // /* b".toList)))
      = true ∧
    (countCodeLines ["/* a */ // /* b".toList]).codeLines = 0 := by decide

/-- C10 (amended): when a line matches the complete-block-comment test
`/\*.*\*\//`, the classifier never enters block-comment mode (subsequent
lines are classified as if no block comment were open); the stripped
remainder is then classified by the line-comment rules, so it is counted as
code when it does not begin with `//` — as in the two-line input
`/* a */ x /* b`, `y`, which yields codeLines = 2 (both lines) and
commentLines = 1 — but a remainder beginning with `//` counts only as a
comment. -/
theorem completePair_no_block_mode :
    (∀ (s : LoopState) (line : List Char),
       s.inMultiLineComment = false → hasBlockPair (trim line) = true →
       (processLine s line).inMultiLineComment = false) ∧
    countCodeLines ["/* a */ x /* b".toList, "y".toList] = ⟨2, 1, 0, 0⟩ := by
  refine ⟨?_, by decide⟩
  intro s line hb hpair
  have hne : trim line ≠ [] := by
    intro h; rw [h] at hpair; exact absurd hpair (by decide)
  rw [processLine_notInBlock s line hb hne]
  have hopen : ¬ (hasSub "/*".toList (trim line) = true
      ∧ ¬ (hasBlockPair (trim line) = true)) := fun h => h.2 hpair
  simp only [classifyFragment]
  rw [if_neg hopen]
  split_ifs <;> rfl

/-- C10 witness: the no-block-mode part applied at the all-zero state and
the line `/* a */ x /* b`. -/
theorem completePair_no_block_mode_witness :
    (⟨0, 0, 0, 0, false⟩ : LoopState).inMultiLineComment = false ∧
    hasBlockPair (trim ("/* a */ x /* b".toList)) = true ∧
    (processLine ⟨0, 0, 0, 0, false⟩
        ("/* a */ x /* b".toList)).inMultiLineComment = false :=
  ⟨rfl, by decide,
   completePair_no_block_mode.1 ⟨0, 0, 0, 0, false⟩ ("/* a */ x /* b".toList)
     rfl (by decide)⟩

/-! ### Claims about error handling, the report and the walker -/

/-- C4: NOT guarded — with an aggregate totalLines of 0 (here: the empty
file list) every percentage in `generateReport` is the JS value
`(0/0)*100 = NaN`, which is printed, not replaced by 0% or N/A. -/
theorem reportLinePercents_nan_on_zero_total :
    reportLinePercents [] = (.nan, .nan, .nan, .nan) := by decide

lemma analyzedStats_nil : analyzedStats [] = [] := rfl

/-- C6: a failed read or stat produces the all-zero statistics record, and
the `totalLines > 0` filter makes the analysis results independent of the
failed files, so they contribute to no aggregate and no ranking. -/
theorem failed_files_excluded :
    analyzeFile none = ⟨0, 0, 0, 0, 0, 0⟩ ∧
    ∀ (outcomes : List (Option (List Char × Nat))),
      analyzedStats outcomes = analyzedStats (outcomes.filter Option.isSome) := by
  refine ⟨rfl, ?_⟩
  intro outcomes
  induction outcomes with
  | nil => rfl
  | cons o t ih =>
    cases o with
    | none =>
      simp only [analyzedStats] at ih ⊢
      simp [List.filter_cons, show (analyzeFile none).totalLines = 0 from rfl, ih]
    | some c =>
      simp only [analyzedStats] at ih ⊢
      by_cases hp : 0 < (analyzeFile (some c)).totalLines
      · simp [List.filter_cons, hp, ih]
      · simp [List.filter_cons, hp, ih]

lemma one_le_length_splitOnChar (sep : Char) (l : List Char) :
    1 ≤ (splitOnChar sep l).length := by
  induction l with
  | nil => simp [splitOnChar]
  | cons c cs ih =>
    simp only [splitOnChar]
    cases h : splitOnChar sep cs with
    | nil => simp
    | cons a as => split_ifs <;> simp

/-- C9: splitting any content on newlines yields at least one line, so a
successfully read file always has totalLines ≥ 1 — an empty file is reported
as one blank line — and therefore survives the `totalLines > 0` filter and
appears in the report. -/
theorem analyzeFile_success_total_positive :
    ∀ (content : List Char) (size : Nat),
      1 ≤ (analyzeFile (some (content, size))).totalLines ∧
      analyzeFile (some ([], size)) = ⟨1, 0, 0, 1, 0, size⟩ ∧
      analyzedStats [some (content, size)] = [analyzeFile (some (content, size))] := by
  intro content size
  have h1 : 1 ≤ (analyzeFile (some (content, size))).totalLines := by
    simp only [analyzeFile]
    exact one_le_length_splitOnChar '\n' content
  refine ⟨h1, rfl, ?_⟩
  have hp : 0 < (analyzeFile (some (content, size))).totalLines :=
    Nat.lt_of_lt_of_le Nat.zero_lt_one h1
  simp [analyzedStats, List.filter_cons, hp]

/-! ### C7: the double-wildcard substitution is unreachable -/

lemma replaceDoubleStar_eq_self : ∀ l : List Char, noDoubleStar l →
    replaceDoubleStar l = l := by
  intro l
  induction l with
  | nil => intro _; rfl
  | cons c cs ih =>
    intro h
    cases cs with
    | nil => rfl
    | cons d ds =>
      simp only [noDoubleStar] at h
      simp only [replaceDoubleStar]
      rw [if_neg h.1]
      exact congrArg _ (ih h.2)

lemma replaceStar_head (l : List Char) :
    replaceStar l = [] ∨ ∃ d ds, replaceStar l = d :: ds ∧ d ≠ '*' := by
  cases l with
  | nil => exact Or.inl rfl
  | cons c cs =>
    right
    by_cases hc : c = '*'
    · subst hc
      exact ⟨'[', '^' :: '/' :: ']' :: '*' :: replaceStar cs,
        by simp [replaceStar], by decide⟩
    · exact ⟨c, replaceStar cs, by simp [replaceStar, hc], hc⟩

lemma noDoubleStar_replaceStar (l : List Char) : noDoubleStar (replaceStar l) := by
  induction l with
  | nil => exact trivial
  | cons c cs ih =>
    by_cases hc : c = '*'
    · subst hc
      simp only [replaceStar, if_pos rfl]
      rcases replaceStar_head cs with h0 | ⟨d, ds, hd, hds⟩
      · rw [h0]
        simp only [noDoubleStar]
        refine ⟨by decide, by decide, by decide, by decide, trivial⟩
      · rw [hd]
        simp only [noDoubleStar]
        refine ⟨by decide, by decide, by decide, by decide,
          fun hpair => hds hpair.2, ?_⟩
        rw [← hd]; exact ih
    · simp only [replaceStar, if_neg hc]
      rcases replaceStar_head cs with h0 | ⟨d, ds, hd, hds⟩
      · rw [h0]; exact trivial
      · rw [hd]
        simp only [noDoubleStar]
        refine ⟨fun hpair => hc hpair.1, ?_⟩
        rw [← hd]; exact ih

/-- C7: because the single-`*` substitution runs first and leaves no two
adjacent `*` characters, the double-wildcard substitution never fires:
`convertGitignoreToRegex` equals the identical pipeline with the `**`
replacement removed, on every pattern. -/
theorem doubleStar_substitution_unreachable (pattern : List Char) :
    convertGitignoreToRegex pattern = convertGitignoreToRegexNoDouble pattern := by
  unfold convertGitignoreToRegex convertGitignoreToRegexNoDouble
  rw [replaceDoubleStar_eq_self (replaceStar (escapeDots pattern))
    (noDoubleStar_replaceStar (escapeDots pattern))]

/-! ### C5: the walker never returns files under ignored directories -/

lemma mem_findTsFiles_not_ignored (patterns : List (String → Bool)) :
    ∀ (entries : FsForest) (segs : List String) (f : FileHandle),
      f ∈ findTsFiles patterns segs entries →
      shouldIgnorePath patterns f.relativePath = false := by
  intro entries
  induction entries with
  | nil => intro segs f hf; simp [findTsFiles] at hf
  | fileEntry name rest ih =>
    intro segs f hf
    simp only [findTsFiles, List.mem_append] at hf
    rcases hf with hf | hf
    · by_cases hig : shouldIgnorePath patterns (joinPath (segs ++ [name])) = true
      · rw [if_pos hig] at hf; simp at hf
      · rw [if_neg hig] at hf
        by_cases hts : isTsFileName name = true
        · rw [if_pos hts] at hf
          simp only [List.mem_singleton] at hf
          rw [hf]
          exact Bool.eq_false_iff.mpr hig
        · rw [if_neg hts] at hf; simp at hf
    · exact ih segs f hf
  | dirEntry name children rest ihc ihr =>
    intro segs f hf
    simp only [findTsFiles, List.mem_append] at hf
    rcases hf with hf | hf
    · by_cases hig : shouldIgnorePath patterns (joinPath (segs ++ [name])) = true
      · rw [if_pos hig] at hf; simp at hf
      · rw [if_neg hig] at hf
        exact ihc (segs ++ [name]) f hf
    · exact ihr segs f hf

/-- C5: `shouldIgnorePath` returns true exactly when some path segment is in
the fixed ignored-directory set or some compiled ignore pattern matches the
relative path; consequently no file whose relative path contains an ignored
segment is ever returned by `findTsFiles`, whatever the ignore patterns. -/
theorem findTsFiles_respects_ignoredDirs :
    (∀ (patterns : List (String → Bool)) (relativePath : String),
       shouldIgnorePath patterns relativePath = true ↔
         ((∃ part ∈ splitPath relativePath, part ∈ ignoredDirs) ∨
          (∃ regex ∈ patterns, regex relativePath = true))) ∧
    (∀ (patterns : List (String → Bool)) (segs : List String)
       (entries : FsForest) (f : FileHandle),
       f ∈ findTsFiles patterns segs entries →
       ∀ part ∈ splitPath f.relativePath, part ∉ ignoredDirs) := by
  constructor
  · intro patterns relativePath
    simp [shouldIgnorePath, List.any_eq_true]
  · intro patterns segs entries f hf part hpart hmem
    have h := mem_findTsFiles_not_ignored patterns entries segs f hf
    have htrue : shouldIgnorePath patterns f.relativePath = true := by
      simp only [shouldIgnorePath, Bool.or_eq_true, List.any_eq_true]
      exact Or.inl ⟨part, hpart, by simp [hmem]⟩
    rw [h] at htrue
    exact Bool.noConfusion htrue

/-- C5 witness: the membership implication applied to the concrete result of
walking a one-file directory with no ignore patterns. -/
theorem findTsFiles_respects_ignoredDirs_witness :
    (⟨"a.ts", "a.ts"⟩ : FileHandle)
        ∈ findTsFiles [] [] (.fileEntry "a.ts" .nil) ∧
    ∀ part ∈ splitPath (FileHandle.relativePath ⟨"a.ts", "a.ts"⟩),
      part ∉ ignoredDirs :=
  ⟨by decide,
   findTsFiles_respects_ignoredDirs.2 [] [] (.fileEntry "a.ts" .nil)
     ⟨"a.ts", "a.ts"⟩ (by decide)⟩

/-! ### C8: unit selection in formatFileSize -/

lemma fileSizeLoop_three (bytes : ℚ) :
    fileSizeLoop 3 bytes = (bytes / 1024 ^ specUnitIndex bytes, specUnitIndex bytes) := by
  have h1024 : (0 : ℚ) < 1024 := by norm_num
  have e1 : bytes / 1024 < 1024 ↔ bytes < 1024 ^ 2 := by
    rw [div_lt_iff h1024]; norm_num
  have e2 : 1024 ≤ bytes / 1024 ↔ 1024 ^ 2 ≤ bytes := by
    rw [le_div_iff h1024]; norm_num
  have e3 : bytes / 1024 / 1024 < 1024 ↔ bytes < 1024 ^ 3 := by
    rw [div_lt_iff h1024, div_lt_iff h1024]; norm_num
  have e4 : 1024 ≤ bytes / 1024 / 1024 ↔ 1024 ^ 3 ≤ bytes := by
    rw [le_div_iff h1024, le_div_iff h1024]; norm_num
  unfold specUnitIndex
  by_cases h0 : bytes < 1024
  · rw [if_pos h0]
    simp [fileSizeLoop, not_le.mpr h0]
  · rw [if_neg h0]
    push_neg at h0
    by_cases h1 : bytes < 1024 ^ 2
    · rw [if_pos h1]
      have d1 : ¬ (1024 ≤ bytes / 1024) := by rw [e2]; exact not_le.mpr h1
      simp [fileSizeLoop, h0, d1]
    · rw [if_neg h1]
      push_neg at h1
      have d1 : 1024 ≤ bytes / 1024 := e2.mpr h1
      by_cases h2 : bytes < 1024 ^ 3
      · rw [if_pos h2]
        have d2 : ¬ (1024 ≤ bytes / 1024 / 1024) := by rw [e4]; exact not_le.mpr h2
        have hle : 1024 ≤ bytes := le_trans (by norm_num) h1
        simp only [fileSizeLoop, if_pos hle, if_pos d1, if_neg d2]
        rw [div_div]
        norm_num
      · rw [if_neg h2]
        push_neg at h2
        have d2 : 1024 ≤ bytes / 1024 / 1024 := e4.mpr h2
        have hle : 1024 ≤ bytes := le_trans (by norm_num) h1
        simp only [fileSizeLoop, if_pos hle, if_pos d1, if_pos d2]
        rw [div_div, div_div]
        norm_num

/-- C8: `formatFileSize` selects its unit by repeated division by 1024: it
renders (to one decimal place) the value bytes / 1024^i with the unit of
index i, where i is the first index among B, KB, MB, GB at which the scaled
value is below 1024 — every earlier index scales to at least 1024 — and i
never exceeds 3 (GB), so the GB value may be 1024 or more. -/
theorem formatFileSize_unit_selection (bytes : ℚ) (h : 0 ≤ bytes) :
    formatFileSize bytes
      = toFixed1 (bytes / 1024 ^ specUnitIndex bytes) ++ " "
          ++ sizeUnits.getD (specUnitIndex bytes) "B" ∧
    specUnitIndex bytes ≤ 3 ∧
    (specUnitIndex bytes < 3 → bytes / 1024 ^ specUnitIndex bytes < 1024) ∧
    (∀ j, j < specUnitIndex bytes → 1024 ≤ bytes / 1024 ^ j) := by
  have h1024 : (0 : ℚ) < 1024 := by norm_num
  refine ⟨?_, ?_, ?_, ?_⟩
  · unfold formatFileSize
    rw [fileSizeLoop_three bytes]
  · unfold specUnitIndex
    split_ifs <;> omega
  · intro hlt
    unfold specUnitIndex at hlt ⊢
    split_ifs at hlt ⊢ with h0 h1 h2
    · simpa using h0
    · rw [pow_one, div_lt_iff h1024]
      calc bytes < 1024 ^ 2 := h1
        _ = 1024 * 1024 := by norm_num
    · rw [div_lt_iff (pow_pos h1024 2)]
      calc bytes < 1024 ^ 3 := h2
        _ = 1024 * 1024 ^ 2 := by norm_num
    · omega
  · intro j hj
    unfold specUnitIndex at hj
    have hstep : ∀ k : Nat, 1024 ^ (k + 1) ≤ bytes → 1024 ≤ bytes / 1024 ^ k := by
      intro k hk
      rw [le_div_iff (pow_pos h1024 k)]
      calc (1024 : ℚ) * 1024 ^ k = 1024 ^ (k + 1) := by ring
        _ ≤ bytes := hk
    split_ifs at hj with h0 h1 h2
    · omega
    · interval_cases j
      exact hstep 0 (by push_neg at h0; simpa using h0)
    · interval_cases j
      · exact hstep 0 (by push_neg at h0; simpa using h0)
      · exact hstep 1 (by push_neg at h1; simpa using h1)
    · interval_cases j
      · exact hstep 0 (by push_neg at h0; simpa using h0)
      · exact hstep 1 (by push_neg at h1; simpa using h1)
      · exact hstep 2 (by push_neg at h2; simpa using h2)

/-- C8 witness: the unit-selection theorem applied at 2048 bytes. -/
theorem formatFileSize_unit_selection_witness :
    (0 : ℚ) ≤ 2048 ∧
    (formatFileSize 2048
       = toFixed1 (2048 / 1024 ^ specUnitIndex 2048) ++ " "
           ++ sizeUnits.getD (specUnitIndex 2048) "B" ∧
     specUnitIndex 2048 ≤ 3 ∧
     (specUnitIndex 2048 < 3 → (2048 : ℚ) / 1024 ^ specUnitIndex 2048 < 1024) ∧
     (∀ j, j < specUnitIndex 2048 → 1024 ≤ (2048 : ℚ) / 1024 ^ j)) :=
  ⟨by norm_num, formatFileSize_unit_selection 2048 (by norm_num)⟩
